import Mathlib

/-!
Verification of the exospherehost runtime core (TypeScript SDK): the
AsyncQueue work queue, node validation, the poller (enqueue) loop, the
worker loop, BaseNode._execute, and the Prune / ReQueueAfter signals.
Each definition is a shallow embedding of the corresponding source
function; JS values are modelled by the `Value` inductive, zod
object-of-strings schemas by their field-name lists, and network effects
by explicit call lists plus boolean response-status oracles.
-/

namespace Exosphere

/-- A JS/JSON value as it flows through the runtime: null, undefined,
strings, numbers, objects (ordered field lists) and arrays. -/
inductive Value where
  | vnull : Value
  | vundef : Value
  | vstr (s : String) : Value
  | vnum (n : Int) : Value
  | vobj (fields : List (String × Value)) : Value
  | varr (elems : List Value) : Value

/-- Property lookup on an object's field list (first match, as in JS
objects where keys are unique). -/
def lookupField (fs : List (String × Value)) (k : String) : Option Value :=
  match fs with
  | [] => none
  | (k', v) :: rest => if k' = k then some v else lookupField rest k

/-- Collect the schema's fields from an object's field list: each must
be present with a string value. -/
def parseFields (fs : List (String × Value)) : List String → Option (List (String × Value))
  | [] => some []
  | k :: ks =>
    match lookupField fs k with
    | some (.vstr s) =>
      match parseFields fs ks with
      | some rest => some ((k, .vstr s) :: rest)
      | none => none
    | _ => none

/-- zod `z.object({... all z.string() fields ...}).parse(v)`: succeeds
iff `v` is an object carrying every schema field with a string value;
unknown keys are stripped (zod default). The schema is its list of
field names — after `validateNodes` every field is string-typed. -/
def parseObject (schema : List String) (v : Value) : Except String Value :=
  match v with
  | .vobj fs =>
    match parseFields fs schema with
    | some kvs => .ok (.vobj kvs)
    | none => .error "ZodError: invalid object fields"
  | _ => .error "ZodError: expected object"

/-- What a handler's `execute` can throw: the two signals, an `Error`
instance (carrying `.message`), or an arbitrary non-Error JS value. -/
inductive Thrown where
  | prune (data : List (String × Value)) : Thrown
  | requeue (delayMs : Int) : Thrown
  | jsError (message : String) : Thrown
  | other (v : Value) : Thrown

/-- `(err as Error).message` for a thrown value that is neither signal:
an `Error` instance yields its message; a non-Error value yields its
`message` property, which is `undefined` (none) unless the value is an
object with a string `message` field. -/
def thrownMessage : Thrown → Option String
  | .jsError m => some m
  | .other (.vobj fs) =>
    match lookupField fs "message" with
    | some (.vstr s) => some s
    | _ => none
  | .other _ => none
  | .prune _ => none
  | .requeue _ => none

/-- A node handler descriptor: its registered name and the three
string-field schemas (`Inputs`, `Outputs`, `Secrets`). -/
structure NodeModel where
  name : String
  inputs : List String
  outputs : List String
  secrets : List String
deriving Repr, DecidableEq

/-- `result.map(r => outputsSchema.parse(r))`: validate each element of
an array result left to right, throwing at the first failure. -/
def parseArray (schema : List String) : List Value → Except String (List Value)
  | [] => .ok []
  | v :: vs =>
    match parseObject schema v with
    | .error m => .error m
    | .ok w =>
      match parseArray schema vs with
      | .error m => .error m
      | .ok ws => .ok (w :: ws)

/-- `BaseNode._execute(inputsRaw, secretsRaw)`: parse inputs, parse
secrets, run the user `execute` (its outcome is the `execResult`
parameter), then either map the output schema parse over an array
result, normalize a `null` result to `\x7b\x7d`, or parse a single
result. zod parse failures surface as thrown `Error`s. -/
def baseNodeExecute (node : NodeModel) (inputsRaw secretsRaw : Value)
    (execResult : Except Thrown Value) : Except Thrown Value :=
  match parseObject node.inputs inputsRaw with
  | .error m => .error (.jsError m)
  | .ok _ =>
    match parseObject node.secrets secretsRaw with
    | .error m => .error (.jsError m)
    | .ok _ =>
      match execResult with
      | .error t => .error t
      | .ok result =>
        match result with
        | .varr es =>
          match parseArray node.outputs es with
          | .ok parsed => .ok (.varr parsed)
          | .error m => .error (.jsError m)
        | .vnull => .ok (.vobj [])
        | v =>
          match parseObject node.outputs v with
          | .ok parsed => .ok parsed
          | .error m => .error (.jsError m)

/-- An outbound HTTP POST made by a signal's `send`. -/
structure HttpPost where
  endpoint : String
  body : Value

/-- `PruneSignal` carrying its free-form data payload. -/
structure PruneSignal where
  data : List (String × Value)

/-- `PruneSignal.send(endpoint, key)`: one POST of `\x7bdata\x7d` to the
endpoint; throws `Failed to send prune signal to ...` iff the response
is not ok. Returns the posts made and the normal/thrown outcome. -/
def PruneSignal.send (s : PruneSignal) (endpoint : String) (respOk : Bool) :
    List HttpPost × Except String Unit :=
  ([⟨endpoint, .vobj [("data", .vobj s.data)]⟩],
   if respOk then .ok () else .error ("Failed to send prune signal to " ++ endpoint))

/-- `ReQueueAfterSignal` carrying its delay in milliseconds. -/
structure ReQueueAfterSignal where
  delayMs : Int

/-- The `ReQueueAfterSignal` constructor: throws
`Delay must be greater than 0` when `delayMs <= 0`, before anything
else happens; otherwise the signal carries the delay unchanged. -/
def mkReQueueAfterSignal (delayMs : Int) : Except String ReQueueAfterSignal :=
  if delayMs ≤ 0 then .error "Delay must be greater than 0"
  else .ok ⟨delayMs⟩

/-- `ReQueueAfterSignal.send(endpoint, key)`: one POST of
`\x7benqueue_after\x7d`; throws iff the response is not ok. -/
def ReQueueAfterSignal.send (s : ReQueueAfterSignal) (endpoint : String) (respOk : Bool) :
    List HttpPost × Except String Unit :=
  ([⟨endpoint, .vobj [("enqueue_after", .vnum s.delayMs)]⟩],
   if respOk then .ok () else .error ("Failed to send requeue after signal to " ++ endpoint))

/-- One orchestrator call made by a worker while handling one item. -/
inductive Call where
  | executed (stateId : String) (outputs : List Value) : Call
  | errored (stateId : String) (error : Option String) : Call
  | pruned (stateId : String) (data : List (String × Value)) : Call
  | requeued (stateId : String) (delayMs : Int) : Call
  | secretsFetch (stateId : String) : Call

/-- A dequeued work item (`StateItem` on the wire). -/
structure StateItem where
  state_id : String
  node_name : String
  inputs : Value

/-- Response statuses the orchestrator gives to this item's reports. -/
structure Responses where
  executedOk : Bool
  erroredOk : Bool
  pruneOk : Bool
  requeueOk : Bool

/-- `notifyExecuted`: posts the executed report; a non-ok response is
only logged, never thrown (second component: uncaught exception). -/
def notifyExecuted (stateId : String) (outputs : List Value) (_respOk : Bool) :
    Call × Option String :=
  (.executed stateId outputs, none)

/-- `notifyErrored`: posts the errored report; a non-ok response is
only logged, never thrown. -/
def notifyErrored (stateId : String) (error : Option String) (_respOk : Bool) :
    Call × Option String :=
  (.errored stateId error, none)

/-- `nodeMapping[name]`: `Object.fromEntries` keeps the last entry for
a repeated key, so lookup scans the reversed list. -/
def nodeLookup (nodes : List NodeModel) (name : String) : Option NodeModel :=
  nodes.reverse.find? (fun n => n.name = name)

/-- `needSecrets(node)`: the secrets schema has at least one field. -/
def needSecrets (node : NodeModel) : Bool :=
  node.secrets.length > 0

/-- What one worker-loop iteration did for one item. -/
structure ProcOut where
  calls : List Call
  uncaught : Option String
  handlerInvoked : Bool

/-- One iteration of `Runtime.worker` for a dequeued item: resolve the
node (unknown → errored report, no handler); otherwise instantiate the
handler, fetch secrets only when the schema declares some, run
`_execute`, and map the outcome: normal result → executed report of the
array-wrapped outputs; thrown `PruneSignal`/`ReQueueAfterSignal` → the
signal's own `send` (whose transport failure is uncaught); any other
thrown value → errored report of its `.message`. `execResult` is the
user handler's outcome; `secretsVal` the secrets the orchestrator
returns. -/
def processItem (nodes : List NodeModel) (item : StateItem) (secretsVal : Value)
    (execResult : Except Thrown Value) (resp : Responses) : ProcOut :=
  match nodeLookup nodes item.node_name with
  | none =>
    ⟨[(notifyErrored item.state_id (some "Unknown node") resp.erroredOk).1], none, false⟩
  | some node =>
    let secretCalls := if needSecrets node then [Call.secretsFetch item.state_id] else []
    let secrets := if needSecrets node then secretsVal else Value.vobj []
    match baseNodeExecute node item.inputs secrets execResult with
    | .ok outputs =>
      let outArray := match outputs with
        | .varr es => es
        | v => [v]
      ⟨secretCalls ++ [(notifyExecuted item.state_id outArray resp.executedOk).1], none, true⟩
    | .error (.prune data) =>
      let sent := PruneSignal.send ⟨data⟩ ("/state/" ++ item.state_id ++ "/prune") resp.pruneOk
      ⟨secretCalls ++ [Call.pruned item.state_id data],
       match sent.2 with | .ok _ => none | .error m => some m, true⟩
    | .error (.requeue d) =>
      let sent := ReQueueAfterSignal.send ⟨d⟩
        ("/state/" ++ item.state_id ++ "/re-enqueue-after") resp.requeueOk
      ⟨secretCalls ++ [Call.requeued item.state_id d],
       match sent.2 with | .ok _ => none | .error m => some m, true⟩
    | .error t =>
      ⟨secretCalls ++ [(notifyErrored item.state_id (thrownMessage t) resp.erroredOk).1],
       none, true⟩

/-- The oracle data for one worker iteration: the dequeued item, the
secrets response, the handler outcome, the report response statuses. -/
structure ItemRun where
  item : StateItem
  secretsVal : Value
  execResult : Except Thrown Value
  resp : Responses

/-- The worker loop over a finite schedule of dequeued items: each
iteration runs `processItem`; an uncaught exception (only a signal
`send` transport failure) stops the worker, otherwise it loops. -/
def workerLoop (nodes : List NodeModel) : List ItemRun → List Call × Option String
  | [] => ([], none)
  | r :: rs =>
    let out := processItem nodes r.item r.secretsVal r.execResult r.resp
    match out.uncaught with
    | some e => (out.calls, some e)
    | none =>
      let rest := workerLoop nodes rs
      (out.calls ++ rest.1, rest.2)

/-- The `AsyncQueue` state: the buffered `items`, the queue of waiting
consumers' promise `resolvers` (identified by ids), and the stored —
never consulted — `capacity`. -/
structure AsyncQueue (T : Type) where
  items : List T
  resolvers : List Nat
  capacity : Nat

/-- `size()`: the buffered count. -/
def AsyncQueue.size {T : Type} (q : AsyncQueue T) : Nat :=
  q.items.length

/-- `put(item)`: if a consumer is waiting, shift its resolver and hand
the item to it directly (second component); otherwise append the item
to the buffer. Always returns at once — there is no capacity check. -/
def AsyncQueue.put {T : Type} (q : AsyncQueue T) (item : T) :
    AsyncQueue T × Option (Nat × T) :=
  match q.resolvers with
  | c :: rest => ({ q with resolvers := rest }, some (c, item))
  | [] => ({ q with items := q.items ++ [item] }, none)

/-- `get()` by consumer `cid`: if the buffer is non-empty, shift and
return its head; otherwise register the consumer's resolver and
suspend (`none`). -/
def AsyncQueue.get {T : Type} (q : AsyncQueue T) (cid : Nat) :
    AsyncQueue T × Option T :=
  match q.items with
  | x :: rest => ({ q with items := rest }, some x)
  | [] => ({ q with resolvers := q.resolvers ++ [cid] }, none)

/-- An operation on the queue, for trace reasoning. -/
inductive QOp (T : Type) where
  | put (x : T) : QOp T
  | get (cid : Nat) : QOp T

/-- An observable queue event. -/
inductive QEvent (T : Type) where
  | handed (cid : Nat) (x : T) : QEvent T
  | buffered (x : T) : QEvent T
  | popped (x : T) : QEvent T
  | suspended (cid : Nat) : QEvent T

/-- One queue operation, with its event. -/
def AsyncQueue.step {T : Type} (q : AsyncQueue T) : QOp T → AsyncQueue T × QEvent T
  | .put x =>
    match q.put x with
    | (q', some (c, y)) => (q', .handed c y)
    | (q', none) => (q', .buffered x)
  | .get cid =>
    match q.get cid with
    | (q', some x) => (q', .popped x)
    | (q', none) => (q', .suspended cid)

/-- Run a trace of queue operations, collecting events. -/
def AsyncQueue.run {T : Type} (q : AsyncQueue T) : List (QOp T) → AsyncQueue T × List (QEvent T)
  | [] => (q, [])
  | op :: ops =>
    let s := q.step op
    let rest := s.1.run ops
    (rest.1, s.2 :: rest.2)

/-- Count the buffered-into-the-queue events of a trace. -/
def countBuffered {T : Type} : List (QEvent T) → Nat
  | [] => 0
  | .buffered _ :: es => countBuffered es + 1
  | _ :: es => countBuffered es

/-- Count the popped-from-the-buffer events of a trace. -/
def countPopped {T : Type} : List (QEvent T) → Nat
  | [] => 0
  | .popped _ :: es => countPopped es + 1
  | _ :: es => countPopped es

/-- `n` successive `get`s by consumer `cid`: the values received (in
order) and the final queue. -/
def AsyncQueue.getN {T : Type} (q : AsyncQueue T) (cid : Nat) : Nat → List T × AsyncQueue T
  | 0 => ([], q)
  | n + 1 =>
    match q.get cid with
    | (q', some x) =>
      let rest := q'.getN cid n
      (x :: rest.1, rest.2)
    | (q', none) => ([], q')

/-- The runtime configuration fields the poller uses. -/
structure PollConfig where
  batchSize : Nat
  pollInterval : Nat

/-- Outcome of one `enqueueCall`: the parsed JSON (whose `states` field
may be absent — `data.states ?? []`), or a thrown network/protocol
error. -/
inductive FetchResult where
  | ok (states : Option (List StateItem)) : FetchResult
  | fail (msg : String) : FetchResult

/-- What one poller iteration did. -/
structure PollOut where
  queue : AsyncQueue StateItem
  requestedBatch : Option Nat
  sleeps : List Nat

/-- One iteration of `Runtime.enqueue`: fetch a batch (of exactly
`batchSize`) only when the buffered size is below `batchSize`, `put`
each returned state, and sleep `pollInterval`; a thrown fetch error is
caught, and the iteration sleeps `2 * pollInterval` instead
(`continue` skips the normal sleep). When no fetch is needed the
iteration just sleeps `pollInterval`. -/
def enqueueIter (cfg : PollConfig) (q : AsyncQueue StateItem) (fetch : FetchResult) :
    PollOut :=
  if q.size < cfg.batchSize then
    match fetch with
    | .ok statesOpt =>
      let states := statesOpt.getD []
      ⟨states.foldl (fun acc s => (acc.put s).1) q, some cfg.batchSize, [cfg.pollInterval]⟩
    | .fail _ => ⟨q, some cfg.batchSize, [2 * cfg.pollInterval]⟩
  else ⟨q, none, [cfg.pollInterval]⟩

/-- The poller loop over a finite schedule of fetch outcomes: every
iteration completes — no fetch error aborts the loop or escapes it. -/
def enqueueLoop (cfg : PollConfig) (q : AsyncQueue StateItem) :
    List FetchResult → AsyncQueue StateItem × List PollOut
  | [] => (q, [])
  | f :: fs =>
    let out := enqueueIter cfg q f
    let rest := enqueueLoop cfg out.queue fs
    (rest.1, out :: rest.2)

/-- A single-quote character, for building the validation messages. -/
def sq : String :=
  String.singleton (Char.ofNat 39)

/-- A handler's static schema as the validator sees it: whether it is a
ZodObject at all, and its fields tagged with whether each is a
ZodString. -/
structure SchemaDecl where
  isObject : Bool
  fields : List (String × Bool)
deriving Repr, DecidableEq

/-- A handler class as `validateNodes` sees it: its `name`, whether its
prototype chain reaches `BaseNode`, whether the three static schemas
are present, and the schemas themselves. -/
structure NodeDecl where
  name : String
  extendsBaseNode : Bool
  hasInputs : Bool
  hasOutputs : Bool
  hasSecrets : Bool
  inputs : SchemaDecl
  outputs : SchemaDecl
  secrets : SchemaDecl
deriving Repr, DecidableEq

/-- The `checkStrings` closure: one error per non-string field, naming
the handler, the schema role and the field. -/
def checkStrings (nodeName : String) (schema : SchemaDecl) (label : String) : List String :=
  schema.fields.filterMap (fun kv =>
    if kv.2 then none
    else some (nodeName ++ "." ++ label ++ " field " ++ sq ++ kv.1 ++ sq ++ " must be string"))

/-- The per-node validation errors, in source order. -/
def nodeErrors (n : NodeDecl) : List String :=
  (if n.extendsBaseNode then [] else [n.name ++ " does not inherit from BaseNode"]) ++
  (if n.hasInputs then [] else [n.name ++ " missing Inputs schema"]) ++
  (if n.hasOutputs then [] else [n.name ++ " missing Outputs schema"]) ++
  (if n.hasSecrets then [] else [n.name ++ " missing Secrets schema"]) ++
  (if n.inputs.isObject then [] else [n.name ++ ".Inputs must be a ZodObject schema"]) ++
  (if n.outputs.isObject then [] else [n.name ++ ".Outputs must be a ZodObject schema"]) ++
  (if n.secrets.isObject then [] else [n.name ++ ".Secrets must be a ZodObject schema"]) ++
  checkStrings n.name n.inputs "Inputs" ++
  checkStrings n.name n.outputs "Outputs" ++
  checkStrings n.name n.secrets "Secrets"

/-- `names.filter((n, i) => names.indexOf(n) !== i)`: every occurrence
of a name after its first. -/
def duplicatesOf (names : List String) : List String :=
  (names.enum.filter (fun p => names.indexOf p.2 ≠ p.1)).map (·.2)

/-- All validation errors of a node list: the per-node errors in order,
then the duplicate-names error if any name repeats. -/
def collectErrors (nodes : List NodeDecl) : List String :=
  (nodes.map nodeErrors).flatten ++
  (let dups := duplicatesOf (nodes.map (·.name))
   if dups.isEmpty then []
   else ["Duplicate node class names found: " ++ String.intercalate ", " dups])

/-- `Runtime.validateNodes`: collects every violation and throws one
aggregated error iff any violation exists; otherwise the runtime
construction proceeds. -/
def validateNodes (nodes : List NodeDecl) : Except String Unit :=
  let errors := collectErrors nodes
  if errors.isEmpty then .ok ()
  else .error ("Node validation errors:\n" ++ String.intercalate "\n" errors)

/-- Is this call a POST to the executed (success) endpoint? -/
def Call.isExecuted : Call → Bool
  | .executed _ _ => true
  | _ => false

/-- Is this call a POST to the errored endpoint? -/
def Call.isErrored : Call → Bool
  | .errored _ _ => true
  | _ => false

/-- Is this call a POST to the prune endpoint? -/
def Call.isPruned : Call → Bool
  | .pruned _ _ => true
  | _ => false

/-- Is this call a POST to the re-enqueue-after endpoint? -/
def Call.isRequeued : Call → Bool
  | .requeued _ _ => true
  | _ => false

/-- A handler outcome that is neither signal: a normal return, a thrown
`Error`, or a thrown non-Error value. -/
def genericOutcome : Except Thrown Value → Bool
  | .error (.prune _) => false
  | .error (.requeue _) => false
  | _ => true

/-- Array-output validation preserves the list's length. -/
theorem parseArray_length (schema : List String) :
    ∀ (es ws : List Value), parseArray schema es = .ok ws → ws.length = es.length := by
  intro es
  induction es with
  | nil =>
    intro ws h
    simp only [parseArray, Except.ok.injEq] at h
    simp [← h]
  | cons e es ih =>
    intro ws h
    simp only [parseArray] at h
    cases hf : parseObject schema e with
    | error m => simp [hf] at h
    | ok w =>
      simp only [hf] at h
      cases hrest : parseArray schema es with
      | error m => simp [hrest] at h
      | ok bs =>
        simp only [hrest, Except.ok.injEq] at h
        subst h
        simp [ih bs hrest]

/-- Putting a list of items into a queue with no waiting consumer
appends them, in order, to the buffer. -/
theorem foldl_put_append {T : Type} :
    ∀ (states : List T) (q : AsyncQueue T), q.resolvers = [] →
      (states.foldl (fun acc s => (acc.put s).1) q).items = q.items ++ states ∧
      (states.foldl (fun acc s => (acc.put s).1) q).resolvers = [] := by
  intro states
  induction states with
  | nil => intro q hq; simp [hq]
  | cons s rest ih =>
    intro q hq
    have hput : (q.put s).1 = { q with items := q.items ++ [s] } := by
      simp [AsyncQueue.put, hq]
    have := ih (q.put s).1 (by rw [hput]; exact hq)
    simp only [List.foldl_cons]
    refine ⟨?_, this.2⟩
    rw [this.1, hput]
    simp

/-- `_execute` throws either a zod `Error` of its own or the very value
the user handler threw. -/
theorem baseNodeExecute_error_cases (node : NodeModel) (i s : Value)
    (er : Except Thrown Value) (t : Thrown)
    (h : baseNodeExecute node i s er = .error t) :
    (∃ m, t = .jsError m) ∨ er = .error t := by
  unfold baseNodeExecute at h
  cases hi : parseObject node.inputs i with
  | error m => simp only [hi] at h; cases h; exact .inl ⟨m, rfl⟩
  | ok w1 =>
    cases hs : parseObject node.secrets s with
    | error m => simp only [hi, hs] at h; cases h; exact .inl ⟨m, rfl⟩
    | ok w2 =>
      simp only [hi, hs] at h
      cases er with
      | error t' => cases h; exact .inr rfl
      | ok result =>
        cases result with
        | varr es =>
          simp only at h
          cases hm : parseArray node.outputs es with
          | ok parsed => simp [hm] at h
          | error m => simp only [hm] at h; cases h; exact .inl ⟨m, rfl⟩
        | vnull => simp at h
        | vundef =>
          simp only [parseObject] at h; cases h; exact .inl ⟨_, rfl⟩
        | vstr str =>
          simp only [parseObject] at h; cases h; exact .inl ⟨_, rfl⟩
        | vnum n =>
          simp only [parseObject] at h; cases h; exact .inl ⟨_, rfl⟩
        | vobj fs =>
          simp only at h
          cases hp : parseObject node.outputs (.vobj fs) with
          | ok parsed => simp [hp] at h
          | error m => simp only [hp] at h; cases h; exact .inl ⟨m, rfl⟩

/-- When the handler outcome is not a signal, the worker iteration has
no uncaught exception: parse failures and generic errors end in
`notifyErrored`, which never throws. -/
theorem processItem_uncaught_none (nodes : List NodeModel) (item : StateItem)
    (secretsVal : Value) (execResult : Except Thrown Value) (resp : Responses)
    (h : genericOutcome execResult = true) :
    (processItem nodes item secretsVal execResult resp).uncaught = none := by
  unfold processItem
  cases hl : nodeLookup nodes item.node_name with
  | none => simp
  | some node =>
    simp only
    cases hb : baseNodeExecute node item.inputs
        (if needSecrets node then secretsVal else Value.vobj []) execResult with
    | ok v => simp
    | error t =>
      cases t with
      | prune d =>
        rcases baseNodeExecute_error_cases _ _ _ _ _ hb with ⟨m, hm⟩ | her
        · exact absurd hm (by simp)
        · rw [her] at h; simp [genericOutcome] at h
      | requeue d =>
        rcases baseNodeExecute_error_cases _ _ _ _ _ hb with ⟨m, hm⟩ | her
        · exact absurd hm (by simp)
        · rw [her] at h; simp [genericOutcome] at h
      | jsError m => simp
      | other v => simp

/-- With inputs and secrets parsing fine, a thrown handler value passes
through `_execute` unchanged. -/
theorem baseNodeExecute_throws (node : NodeModel) (i s w1 w2 : Value) (t : Thrown)
    (hi : parseObject node.inputs i = .ok w1)
    (hs : parseObject node.secrets s = .ok w2) :
    baseNodeExecute node i s (.error t) = .error t := by
  unfold baseNodeExecute
  simp [hi, hs]

/-- With inputs and secrets parsing fine, a `null` handler result is
normalized to the empty object. -/
theorem baseNodeExecute_null (node : NodeModel) (i s w1 w2 : Value)
    (hi : parseObject node.inputs i = .ok w1)
    (hs : parseObject node.secrets s = .ok w2) :
    baseNodeExecute node i s (.ok .vnull) = .ok (.vobj []) := by
  unfold baseNodeExecute
  simp [hi, hs]

/-- With inputs and secrets parsing fine, a plain-object handler result
is the parse of that object against the output schema. -/
theorem baseNodeExecute_obj (node : NodeModel) (i s w1 w2 w : Value)
    (fs : List (String × Value))
    (hi : parseObject node.inputs i = .ok w1)
    (hs : parseObject node.secrets s = .ok w2)
    (ho : parseObject node.outputs (.vobj fs) = .ok w) :
    baseNodeExecute node i s (.ok (.vobj fs)) = .ok w := by
  unfold baseNodeExecute
  simp [hi, hs, ho]

/-- With inputs and secrets parsing fine, an array handler result is
the element-wise parse against the output schema. -/
theorem baseNodeExecute_arr (node : NodeModel) (i s w1 w2 : Value)
    (es ws : List Value)
    (hi : parseObject node.inputs i = .ok w1)
    (hs : parseObject node.secrets s = .ok w2)
    (ho : parseArray node.outputs es = .ok ws) :
    baseNodeExecute node i s (.ok (.varr es)) = .ok (.varr ws) := by
  unfold baseNodeExecute
  simp [hi, hs, ho]

/-- zod object parse rejects `undefined`. -/
theorem parseObject_vundef (schema : List String) :
    parseObject schema .vundef = .error "ZodError: expected object" := rfl

/-- With inputs and secrets parsing fine, an `undefined` handler result
is not normalized: it reaches `outputsSchema.parse`, which throws. -/
theorem baseNodeExecute_undef (node : NodeModel) (i s w1 w2 : Value)
    (hi : parseObject node.inputs i = .ok w1)
    (hs : parseObject node.secrets s = .ok w2) :
    baseNodeExecute node i s (.ok .vundef)
      = .error (.jsError "ZodError: expected object") := by
  unfold baseNodeExecute
  simp [hi, hs, parseObject_vundef]

/-- A successful zod object parse always yields an object. -/
theorem parseObject_ok_shape (schema : List String) (v w : Value)
    (h : parseObject schema v = .ok w) : ∃ kvs, w = .vobj kvs := by
  unfold parseObject at h
  cases v <;> simp only at h
  case vobj fs =>
    cases hm : parseFields fs schema with
    | none => simp [hm] at h
    | some kvs =>
      simp only [hm, Except.ok.injEq] at h
      exact ⟨kvs, h.symm⟩
  all_goals cases h

/-- C1. For a work item whose handler resolves and whose inputs and
secrets parse, a resolving `execute`:
(a) plain-object result → the executed report's payload is exactly the
one schema-validated object;
(b) array result → the payload is the element-wise validated list, of
the same length and order;
(c) `null` result → the payload is the normalized `[\x7b\x7d]`;
(d) (amendment) an absent (`undefined`) result is NOT normalized: zod
rejects it, so no executed report is posted and the item is reported
errored instead. -/
theorem claim1_executed_payload_shape
    (nodes : List NodeModel) (item : StateItem) (secretsVal : Value)
    (resp : Responses) (node : NodeModel) (w1 w2 : Value)
    (h1 : nodeLookup nodes item.node_name = some node)
    (hi : parseObject node.inputs item.inputs = .ok w1)
    (hs : parseObject node.secrets
      (if needSecrets node then secretsVal else .vobj []) = .ok w2) :
    (∀ fs w, parseObject node.outputs (.vobj fs) = .ok w →
      (processItem nodes item secretsVal (.ok (.vobj fs)) resp).calls.filter Call.isExecuted
        = [.executed item.state_id [w]]) ∧
    (∀ es ws, parseArray node.outputs es = .ok ws →
      (processItem nodes item secretsVal (.ok (.varr es)) resp).calls.filter Call.isExecuted
        = [.executed item.state_id ws] ∧ ws.length = es.length) ∧
    ((processItem nodes item secretsVal (.ok .vnull) resp).calls.filter Call.isExecuted
      = [.executed item.state_id [.vobj []]]) ∧
    ((processItem nodes item secretsVal (.ok .vundef) resp).calls.filter Call.isExecuted
        = [] ∧
     (processItem nodes item secretsVal (.ok .vundef) resp).calls.filter Call.isErrored
        = [.errored item.state_id (some "ZodError: expected object")]) := by
  refine ⟨?_, ?_, ?_, ?_, ?_⟩
  · intro fs w ho
    obtain ⟨kvs, rfl⟩ := parseObject_ok_shape _ _ _ ho
    unfold processItem
    rw [h1]
    simp only
    rw [baseNodeExecute_obj node item.inputs _ w1 w2 _ fs hi hs ho]
    cases hns : needSecrets node <;>
      simp [hns, notifyExecuted, Call.isExecuted, List.filter]
  · intro es ws ho
    constructor
    · unfold processItem
      rw [h1]
      simp only
      rw [baseNodeExecute_arr node item.inputs _ w1 w2 es ws hi hs ho]
      cases hns : needSecrets node <;>
        simp [hns, notifyExecuted, Call.isExecuted, List.filter]
    · exact parseArray_length _ _ _ ho
  · unfold processItem
    rw [h1]
    simp only
    rw [baseNodeExecute_null node item.inputs _ w1 w2 hi hs]
    cases hns : needSecrets node <;>
      simp [hns, notifyExecuted, Call.isExecuted, List.filter]
  · unfold processItem
    rw [h1]
    simp only
    rw [baseNodeExecute_undef node item.inputs _ w1 w2 hi hs]
    cases hns : needSecrets node <;>
      simp [hns, notifyErrored, Call.isExecuted, List.filter]
  · unfold processItem
    rw [h1]
    simp only
    rw [baseNodeExecute_undef node item.inputs _ w1 w2 hi hs]
    cases hns : needSecrets node <;>
      simp [hns, notifyErrored, thrownMessage, Call.isErrored, List.filter]

/-- C1, counterexample to the claim as stated: a handler for node `A`
(inputs `x`, outputs `y`, no secrets) whose `execute` resolves with an
absent (`undefined`) result. The claim says the executed payload is
`[\x7b\x7d]`; the code posts no executed report at all and reports the
item errored. -/
theorem claim1_absent_result_counterexample :
    (processItem [⟨"A", ["x"], ["y"], []⟩] ⟨"s1", "A", .vobj [("x", .vstr "1")]⟩
      (.vobj []) (.ok .vundef) ⟨true, true, true, true⟩).calls.filter Call.isExecuted
      = [] ∧
    (processItem [⟨"A", ["x"], ["y"], []⟩] ⟨"s1", "A", .vobj [("x", .vstr "1")]⟩
      (.vobj []) (.ok .vundef) ⟨true, true, true, true⟩).calls
      = [.errored "s1" (some "ZodError: expected object")] :=
  ⟨rfl, rfl⟩

/-- C1, witness: the amended theorem applied to a concrete handler,
item and `null` result. -/
theorem claim1_executed_payload_shape_witness :
    nodeLookup [⟨"A", ["x"], ["y"], []⟩] "A" = some ⟨"A", ["x"], ["y"], []⟩ ∧
    (processItem [⟨"A", ["x"], ["y"], []⟩] ⟨"s1", "A", .vobj [("x", .vstr "1")]⟩
      (.vobj []) (.ok .vnull) ⟨true, true, true, true⟩).calls.filter Call.isExecuted
      = [.executed "s1" [.vobj []]] :=
  ⟨rfl,
   (claim1_executed_payload_shape [⟨"A", ["x"], ["y"], []⟩]
     ⟨"s1", "A", .vobj [("x", .vstr "1")]⟩ (.vobj []) ⟨true, true, true, true⟩
     ⟨"A", ["x"], ["y"], []⟩ (.vobj [("x", .vstr "1")]) (.vobj [])
     rfl rfl rfl).2.2.1⟩

/-- C2. For a work item whose handler resolves, whose inputs and
secrets parse, and whose `execute` throws a generic `Error` (neither
signal): the worker posts exactly one errored report, carrying the
raised error's message; it posts no executed report; and nothing
escapes the iteration. -/
theorem claim2_generic_error_reports
    (nodes : List NodeModel) (item : StateItem) (secretsVal : Value)
    (resp : Responses) (node : NodeModel) (w1 w2 : Value) (msg : String)
    (h1 : nodeLookup nodes item.node_name = some node)
    (hi : parseObject node.inputs item.inputs = .ok w1)
    (hs : parseObject node.secrets
      (if needSecrets node then secretsVal else .vobj []) = .ok w2) :
    (processItem nodes item secretsVal (.error (.jsError msg)) resp).calls.filter Call.isErrored
      = [.errored item.state_id (some msg)] ∧
    (processItem nodes item secretsVal (.error (.jsError msg)) resp).calls.filter Call.isExecuted
      = [] ∧
    (processItem nodes item secretsVal (.error (.jsError msg)) resp).uncaught = none := by
  have hb := baseNodeExecute_throws node item.inputs _ w1 w2 (.jsError msg) hi hs
  refine ⟨?_, ?_, processItem_uncaught_none _ _ _ _ _ rfl⟩ <;>
  · unfold processItem
    rw [h1]
    simp only
    rw [hb]
    cases hns : needSecrets node <;>
      simp [hns, notifyErrored, thrownMessage, Call.isErrored, Call.isExecuted, List.filter]

/-- C2, witness: a handler for node `A` throwing `Error("boom")`. -/
theorem claim2_generic_error_reports_witness :
    (processItem [⟨"A", ["x"], ["y"], []⟩] ⟨"s1", "A", .vobj [("x", .vstr "1")]⟩
      (.vobj []) (.error (.jsError "boom")) ⟨true, true, true, true⟩).calls.filter
        Call.isErrored
      = [.errored "s1" (some "boom")] :=
  (claim2_generic_error_reports [⟨"A", ["x"], ["y"], []⟩]
    ⟨"s1", "A", .vobj [("x", .vstr "1")]⟩ (.vobj []) ⟨true, true, true, true⟩
    ⟨"A", ["x"], ["y"], []⟩ (.vobj [("x", .vstr "1")]) (.vobj []) "boom"
    rfl rfl rfl).1

/-- C3. For a work item whose handler resolves, whose inputs and
secrets parse, and whose `execute` throws `PruneSignal(data)`: the
worker makes exactly one prune call, carrying the signal's data, and
no errored or executed call; and `PruneSignal.send` itself performs
exactly one outbound POST of `\x7bdata\x7d` and throws a transport
error exactly when the response is not ok. -/
theorem claim3_prune_signal_reports
    (nodes : List NodeModel) (item : StateItem) (secretsVal : Value)
    (resp : Responses) (node : NodeModel) (w1 w2 : Value)
    (data : List (String × Value))
    (h1 : nodeLookup nodes item.node_name = some node)
    (hi : parseObject node.inputs item.inputs = .ok w1)
    (hs : parseObject node.secrets
      (if needSecrets node then secretsVal else .vobj []) = .ok w2) :
    ((processItem nodes item secretsVal (.error (.prune data)) resp).calls.filter Call.isPruned
      = [.pruned item.state_id data] ∧
     (processItem nodes item secretsVal (.error (.prune data)) resp).calls.filter Call.isErrored
      = [] ∧
     (processItem nodes item secretsVal (.error (.prune data)) resp).calls.filter Call.isExecuted
      = []) ∧
    (∀ (s : PruneSignal) (ep : String) (respOk : Bool),
      (PruneSignal.send s ep respOk).1 = [⟨ep, .vobj [("data", .vobj s.data)]⟩] ∧
      ((PruneSignal.send s ep respOk).2 = .ok () ↔ respOk = true)) := by
  have hb := baseNodeExecute_throws node item.inputs _ w1 w2 (.prune data) hi hs
  constructor
  · refine ⟨?_, ?_, ?_⟩ <;>
    · unfold processItem
      rw [h1]
      simp only
      rw [hb]
      cases hns : needSecrets node <;>
        simp [hns, Call.isPruned, Call.isErrored, Call.isExecuted, List.filter]
  · intro s ep respOk
    cases respOk <;> simp [PruneSignal.send]

/-- C3, witness: a handler for node `A` throwing a prune signal with a
one-field payload. -/
theorem claim3_prune_signal_reports_witness :
    (processItem [⟨"A", ["x"], ["y"], []⟩] ⟨"s1", "A", .vobj [("x", .vstr "1")]⟩
      (.vobj []) (.error (.prune [("k", .vstr "v")])) ⟨true, true, true, true⟩).calls.filter
        Call.isPruned
      = [.pruned "s1" [("k", .vstr "v")]] :=
  ((claim3_prune_signal_reports [⟨"A", ["x"], ["y"], []⟩]
    ⟨"s1", "A", .vobj [("x", .vstr "1")]⟩ (.vobj []) ⟨true, true, true, true⟩
    ⟨"A", ["x"], ["y"], []⟩ (.vobj [("x", .vstr "1")]) (.vobj []) [("k", .vstr "v")]
    rfl rfl rfl).1).1

/-- C6. A dequeued item naming no registered node is immediately
reported errored with exactly the message `Unknown node`; no handler is
instantiated or invoked (`handlerInvoked = false`), nothing else is
called, and the worker continues (no uncaught exception). -/
theorem claim6_unknown_node
    (nodes : List NodeModel) (item : StateItem) (secretsVal : Value)
    (execResult : Except Thrown Value) (resp : Responses)
    (h : nodeLookup nodes item.node_name = none) :
    processItem nodes item secretsVal execResult resp
      = ⟨[.errored item.state_id (some "Unknown node")], none, false⟩ := by
  unfold processItem
  rw [h]
  rfl

/-- C6, witness: an empty registry and an item naming node `B`. -/
theorem claim6_unknown_node_witness :
    processItem [] ⟨"s9", "B", .vobj []⟩ (.vobj []) (.ok .vnull) ⟨true, true, true, true⟩
      = ⟨[.errored "s9" (some "Unknown node")], none, false⟩ :=
  claim6_unknown_node [] ⟨"s9", "B", .vobj []⟩ (.vobj []) (.ok .vnull)
    ⟨true, true, true, true⟩ rfl

/-- C10. A handler rejecting with a non-Error value such as a thrown
string still causes an errored report, but `(err as Error).message` is
`undefined` for such a value, so the report carries no error message. -/
theorem claim10_non_error_thrown
    (nodes : List NodeModel) (item : StateItem) (secretsVal : Value)
    (resp : Responses) (node : NodeModel) (w1 w2 : Value) (s : String)
    (h1 : nodeLookup nodes item.node_name = some node)
    (hi : parseObject node.inputs item.inputs = .ok w1)
    (hs : parseObject node.secrets
      (if needSecrets node then secretsVal else .vobj []) = .ok w2) :
    (processItem nodes item secretsVal (.error (.other (.vstr s))) resp).calls.filter
        Call.isErrored
      = [.errored item.state_id none] ∧
    (processItem nodes item secretsVal (.error (.other (.vstr s))) resp).calls.filter
        Call.isExecuted
      = [] ∧
    thrownMessage (.other (.vstr s)) = none := by
  have hb := baseNodeExecute_throws node item.inputs _ w1 w2 (.other (.vstr s)) hi hs
  refine ⟨?_, ?_, rfl⟩ <;>
  · unfold processItem
    rw [h1]
    simp only
    rw [hb]
    cases hns : needSecrets node <;>
      simp [hns, notifyErrored, thrownMessage, Call.isErrored, Call.isExecuted, List.filter]

/-- C10, witness: a handler for node `A` throwing the string `oops`. -/
theorem claim10_non_error_thrown_witness :
    (processItem [⟨"A", ["x"], ["y"], []⟩] ⟨"s1", "A", .vobj [("x", .vstr "1")]⟩
      (.vobj []) (.error (.other (.vstr "oops"))) ⟨true, true, true, true⟩).calls.filter
        Call.isErrored
      = [.errored "s1" none] :=
  (claim10_non_error_thrown [⟨"A", ["x"], ["y"], []⟩]
    ⟨"s1", "A", .vobj [("x", .vstr "1")]⟩ (.vobj []) ⟨true, true, true, true⟩
    ⟨"A", ["x"], ["y"], []⟩ (.vobj [("x", .vstr "1")]) (.vobj []) "oops"
    rfl rfl rfl).1

/-- C4. A failed executed/errored report never terminates a worker:
for any schedule of items whose handler outcomes are not signals —
whatever the orchestrator's response statuses, including failing
executed and errored acknowledgements — the worker loop processes
every item (the calls of each appear, in order) and ends with no
uncaught exception. -/
theorem claim4_report_failure_never_stops_worker
    (nodes : List NodeModel) (runs : List ItemRun)
    (h : ∀ r ∈ runs, genericOutcome r.execResult = true) :
    workerLoop nodes runs
      = ((runs.map (fun r =>
            (processItem nodes r.item r.secretsVal r.execResult r.resp).calls)).flatten,
         none) := by
  induction runs with
  | nil => rfl
  | cons r rs ih =>
    have hr := processItem_uncaught_none nodes r.item r.secretsVal r.execResult r.resp
      (h r (List.mem_cons_self _ _))
    have ihr := ih (fun r' hr' => h r' (List.mem_cons_of_mem _ hr'))
    unfold workerLoop
    simp only [hr, ihr, List.map_cons, List.flatten_cons]

/-- C4, witness: two items — one executing fine, one naming an unknown
node — with the orchestrator rejecting both the executed and the
errored reports; the worker still processes both and survives. -/
theorem claim4_report_failure_never_stops_worker_witness :
    (∀ r ∈ [(⟨⟨"s1", "A", .vobj [("x", .vstr "1")]⟩, .vobj [], .ok .vnull,
              ⟨false, false, true, true⟩⟩ : ItemRun),
            ⟨⟨"s2", "B", .vobj []⟩, .vobj [], .ok .vnull, ⟨false, false, true, true⟩⟩],
       genericOutcome r.execResult = true) ∧
    workerLoop [⟨"A", ["x"], ["y"], []⟩]
        [⟨⟨"s1", "A", .vobj [("x", .vstr "1")]⟩, .vobj [], .ok .vnull,
          ⟨false, false, true, true⟩⟩,
         ⟨⟨"s2", "B", .vobj []⟩, .vobj [], .ok .vnull, ⟨false, false, true, true⟩⟩]
      = ([.executed "s1" [.vobj []], .errored "s2" (some "Unknown node")], none) := by
  have hgen : ∀ r ∈ [(⟨⟨"s1", "A", .vobj [("x", .vstr "1")]⟩, .vobj [], .ok .vnull,
        ⟨false, false, true, true⟩⟩ : ItemRun),
      ⟨⟨"s2", "B", .vobj []⟩, .vobj [], .ok .vnull, ⟨false, false, true, true⟩⟩],
      genericOutcome r.execResult = true := by
    intro r hr
    simp only [List.mem_cons, List.not_mem_nil, or_false] at hr
    rcases hr with rfl | rfl <;> rfl
  exact ⟨hgen, claim4_report_failure_never_stops_worker _ _ hgen⟩

/-- C7. `ReQueueAfterSignal` construction: a delay `≤ 0` throws
`Delay must be greater than 0` at the constructor — the model's
constructor performs no send, so no network call can have been made —
and any delay `> 0` constructs a signal carrying that delay
unchanged. -/
theorem claim7_requeue_delay_validation :
    (∀ d : Int, d ≤ 0 → mkReQueueAfterSignal d = .error "Delay must be greater than 0") ∧
    (∀ d : Int, 0 < d → mkReQueueAfterSignal d = .ok ⟨d⟩) := by
  constructor
  · intro d hd
    simp [mkReQueueAfterSignal, hd]
  · intro d hd
    simp [mkReQueueAfterSignal, not_le.mpr hd]

/-- C7, witness: delay `-5` fails, delay `3` succeeds carrying `3`. -/
theorem claim7_requeue_delay_validation_witness :
    mkReQueueAfterSignal (-5) = .error "Delay must be greater than 0" ∧
    mkReQueueAfterSignal 3 = .ok ⟨3⟩ :=
  ⟨claim7_requeue_delay_validation.1 (-5) (by decide),
   claim7_requeue_delay_validation.2 3 (by decide)⟩

/-- C8. The poller iteration: a batch is fetched only when the
buffered size is below the batch size, and the request asks for
exactly `batchSize` items; on success every returned item is `put`
into the queue (appended in order when no consumer waits) and the
iteration sleeps `pollInterval`; on fetch failure the error is
swallowed and the iteration sleeps `2 * pollInterval`; when the queue
is full enough no fetch happens; and the loop always runs its whole
schedule — one completed iteration per scheduled fetch outcome, so no
failure aborts or escapes it. -/
theorem claim8_poller_iteration :
    (∀ (cfg : PollConfig) (q : AsyncQueue StateItem) (f : FetchResult),
       q.size < cfg.batchSize →
       (enqueueIter cfg q f).requestedBatch = some cfg.batchSize) ∧
    (∀ (cfg : PollConfig) (q : AsyncQueue StateItem) (f : FetchResult),
       ¬ q.size < cfg.batchSize →
       enqueueIter cfg q f = ⟨q, none, [cfg.pollInterval]⟩) ∧
    (∀ (cfg : PollConfig) (q : AsyncQueue StateItem) (statesOpt : Option (List StateItem)),
       q.size < cfg.batchSize →
       enqueueIter cfg q (.ok statesOpt)
         = ⟨(statesOpt.getD []).foldl (fun acc s => (acc.put s).1) q,
            some cfg.batchSize, [cfg.pollInterval]⟩) ∧
    (∀ (cfg : PollConfig) (q : AsyncQueue StateItem) (statesOpt : Option (List StateItem)),
       q.size < cfg.batchSize → q.resolvers = [] →
       (enqueueIter cfg q (.ok statesOpt)).queue.items = q.items ++ statesOpt.getD []) ∧
    (∀ (cfg : PollConfig) (q : AsyncQueue StateItem) (m : String),
       q.size < cfg.batchSize →
       enqueueIter cfg q (.fail m) = ⟨q, some cfg.batchSize, [2 * cfg.pollInterval]⟩) ∧
    (∀ (cfg : PollConfig) (q : AsyncQueue StateItem) (script : List FetchResult),
       (enqueueLoop cfg q script).2.length = script.length) := by
  refine ⟨?_, ?_, ?_, ?_, ?_, ?_⟩
  · intro cfg q f h
    cases f <;> simp [enqueueIter, h]
  · intro cfg q f h
    simp [enqueueIter, h]
  · intro cfg q statesOpt h
    simp [enqueueIter, h]
  · intro cfg q statesOpt h hres
    simp only [enqueueIter, h, if_true]
    exact (foldl_put_append (statesOpt.getD []) q hres).1
  · intro cfg q m h
    simp [enqueueIter, h]
  · intro cfg q script
    induction script generalizing q with
    | nil => rfl
    | cons f fs ih =>
      unfold enqueueLoop
      simp [ih]

/-- C8, witness: batch size 2, empty queue. A failing fetch yields a
completed iteration sleeping `2 * 100`; a successful fetch of two
items appends both in order; a full queue fetches nothing. -/
theorem claim8_poller_iteration_witness :
    enqueueIter ⟨2, 100⟩ ⟨[], [], 4⟩ (.fail "network down")
      = ⟨⟨[], [], 4⟩, some 2, [200]⟩ ∧
    (enqueueIter ⟨2, 100⟩ ⟨[], [], 4⟩
        (.ok (some [⟨"s1", "A", .vobj []⟩, ⟨"s2", "A", .vobj []⟩]))).queue.items
      = [⟨"s1", "A", .vobj []⟩, ⟨"s2", "A", .vobj []⟩] ∧
    enqueueIter ⟨0, 100⟩ ⟨[], [], 4⟩ (.fail "network down")
      = ⟨⟨[], [], 4⟩, none, [100]⟩ :=
  ⟨claim8_poller_iteration.2.2.2.2.1 ⟨2, 100⟩ ⟨[], [], 4⟩ "network down" (by decide),
   claim8_poller_iteration.2.2.2.1 ⟨2, 100⟩ ⟨[], [], 4⟩
     (some [⟨"s1", "A", .vobj []⟩, ⟨"s2", "A", .vobj []⟩]) (by decide) rfl,
   claim8_poller_iteration.2.1 ⟨0, 100⟩ ⟨[], [], 4⟩ (.fail "network down") (by decide)⟩

/-- C9. The AsyncQueue contract: `put` never blocks — with a waiting
consumer it hands the item directly to the first one and leaves the
buffer untouched; otherwise it appends to the buffer unconditionally
(no upper bound, whatever `capacity` holds). `get` pops the oldest
buffered item when the buffer is non-empty and otherwise suspends,
registering the consumer. Successive `get`s return the buffered items
in FIFO (`put`) order. And over any operation trace, the buffered
count satisfies buffered-in + initial size = popped-out + final size,
direct hand-offs excluded. -/
theorem claim9_async_queue_contract (T : Type) :
    (∀ (q : AsyncQueue T) (x : T) (c : Nat) (rest : List Nat),
       q.resolvers = c :: rest →
       q.put x = ({ q with resolvers := rest }, some (c, x))) ∧
    (∀ (q : AsyncQueue T) (x : T), q.resolvers = [] →
       q.put x = ({ q with items := q.items ++ [x] }, none)) ∧
    (∀ (q : AsyncQueue T) (cid : Nat) (x : T) (rest : List T),
       q.items = x :: rest →
       q.get cid = ({ q with items := rest }, some x)) ∧
    (∀ (q : AsyncQueue T) (cid : Nat), q.items = [] →
       q.get cid = ({ q with resolvers := q.resolvers ++ [cid] }, none)) ∧
    (∀ (q : AsyncQueue T) (cid n : Nat), n ≤ q.items.length →
       (q.getN cid n).1 = q.items.take n) ∧
    (∀ (q : AsyncQueue T) (ops : List (QOp T)),
       countBuffered (q.run ops).2 + q.size = countPopped (q.run ops).2 + (q.run ops).1.size) := by
  refine ⟨?_, ?_, ?_, ?_, ?_, ?_⟩
  · intro q x c rest h
    simp [AsyncQueue.put, h]
  · intro q x h
    simp [AsyncQueue.put, h]
  · intro q cid x rest h
    simp [AsyncQueue.get, h]
  · intro q cid h
    simp [AsyncQueue.get, h]
  · intro q cid n
    induction n generalizing q with
    | zero => intro _; simp [AsyncQueue.getN]
    | succ n ih =>
      intro h
      cases hq : q.items with
      | nil => rw [hq] at h; simp at h
      | cons x rest =>
        have hlen : n ≤ rest.length := by
          rw [hq] at h; simpa using h
        have := ih { q with items := rest } hlen
        simp [AsyncQueue.getN, AsyncQueue.get, hq, this]
  · intro q ops
    induction ops generalizing q with
    | nil => simp [AsyncQueue.run, countBuffered, countPopped]
    | cons op ops ih =>
      cases op with
      | put x =>
        cases hres : q.resolvers with
        | nil =>
          have hstep : q.step (.put x) = ({ q with items := q.items ++ [x] }, .buffered x) := by
            simp [AsyncQueue.step, AsyncQueue.put, hres]
          simp only [AsyncQueue.run, hstep]
          have := ih { q with items := q.items ++ [x] }
          simp only [countBuffered, countPopped]
          simp only [AsyncQueue.size, List.length_append, List.length_cons,
            List.length_nil] at this ⊢
          omega
        | cons c rest =>
          have hstep : q.step (.put x) = ({ q with resolvers := rest }, .handed c x) := by
            simp [AsyncQueue.step, AsyncQueue.put, hres]
          simp only [AsyncQueue.run, hstep]
          have := ih { q with resolvers := rest }
          simp only [countBuffered, countPopped]
          simp only [AsyncQueue.size] at this ⊢
          omega
      | get cid =>
        cases hq : q.items with
        | nil =>
          have hstep : q.step (.get cid)
              = ({ q with resolvers := q.resolvers ++ [cid] }, .suspended cid) := by
            simp [AsyncQueue.step, AsyncQueue.get, hq]
          simp only [AsyncQueue.run, hstep]
          have := ih { q with resolvers := q.resolvers ++ [cid] }
          simp only [countBuffered, countPopped]
          simp only [AsyncQueue.size] at this ⊢
          omega
        | cons x rest =>
          have hstep : q.step (.get cid) = ({ q with items := rest }, .popped x) := by
            simp [AsyncQueue.step, AsyncQueue.get, hq]
          simp only [AsyncQueue.run, hstep]
          have := ih { q with items := rest }
          simp only [countBuffered, countPopped]
          simp only [AsyncQueue.size, hq, List.length_cons] at this ⊢
          omega

/-- C9, witness: a three-item trace on a `Nat` queue — two puts and a
get from the empty queue deliver in FIFO order and leave one buffered
item, and the event counts balance. -/
theorem claim9_async_queue_contract_witness :
    ((⟨[7, 8], [], 4⟩ : AsyncQueue Nat).getN 0 2).1 = [7, 8] ∧
    (AsyncQueue.put ⟨[], [], 4⟩ 7 = (⟨[7], [], 4⟩, none)) ∧
    countBuffered ((⟨[], [], 4⟩ : AsyncQueue Nat).run
        [.put 7, .put 8, .get 0]).2 + 0
      = countPopped ((⟨[], [], 4⟩ : AsyncQueue Nat).run [.put 7, .put 8, .get 0]).2
        + ((⟨[], [], 4⟩ : AsyncQueue Nat).run [.put 7, .put 8, .get 0]).1.size :=
  ⟨(claim9_async_queue_contract Nat).2.2.2.2.1 ⟨[7, 8], [], 4⟩ 0 2 (by decide),
   (claim9_async_queue_contract Nat).2.1 ⟨[], [], 4⟩ 7 rfl,
   (claim9_async_queue_contract Nat).2.2.2.2.2 ⟨[], [], 4⟩ [.put 7, .put 8, .get 0]⟩

/-- A non-string field yields its `checkStrings` message. -/
theorem checkStrings_mem (nodeName : String) (schema : SchemaDecl) (label k : String)
    (h : (k, false) ∈ schema.fields) :
    (nodeName ++ "." ++ label ++ " field " ++ sq ++ k ++ sq ++ " must be string")
      ∈ checkStrings nodeName schema label := by
  unfold checkStrings
  exact List.mem_filterMap.mpr ⟨(k, false), h, by simp⟩

/-- Any `checkStrings` message of a node is among that node's errors. -/
theorem mem_nodeErrors_of_checkStrings (n : NodeDecl) (msg : String)
    (h : msg ∈ checkStrings n.name n.inputs "Inputs" ∨
         msg ∈ checkStrings n.name n.outputs "Outputs" ∨
         msg ∈ checkStrings n.name n.secrets "Secrets") :
    msg ∈ nodeErrors n := by
  unfold nodeErrors
  rcases h with h | h | h <;> simp [List.mem_append, h]

/-- A node's error is among the collected errors of any list holding
that node. -/
theorem mem_collectErrors_of_nodeErrors (nodes : List NodeDecl) (n : NodeDecl)
    (hn : n ∈ nodes) (msg : String) (h : msg ∈ nodeErrors n) :
    msg ∈ collectErrors nodes := by
  unfold collectErrors
  exact List.mem_append_left _
    (List.mem_flatten.mpr ⟨nodeErrors n, List.mem_map_of_mem _ hn, h⟩)

/-- Two equal names produce exactly the second occurrence as the
duplicate, as `names.filter((n, i) => names.indexOf(n) !== i)` does. -/
theorem duplicatesOf_pair (a : String) : duplicatesOf [a, a] = [a] := by
  simp [duplicatesOf, List.enum, List.enumFrom, List.indexOf, List.findIdx,
    List.findIdx.go, List.filter]

/-- Non-empty collected errors are thrown as one aggregated error. -/
theorem validateNodes_error (nodes : List NodeDecl) (h : collectErrors nodes ≠ []) :
    validateNodes nodes
      = .error ("Node validation errors:\n"
          ++ String.intercalate "\n" (collectErrors nodes)) := by
  have hemp : (collectErrors nodes).isEmpty = false := by
    cases hc : collectErrors nodes with
    | nil => exact absurd hc h
    | cons x xs => rfl
  simp [validateNodes, hemp]

/-- C5. Runtime construction validates eagerly and aggregates:
(a) two handlers sharing one name always fail construction, the shared
name listed in the duplicate-names violation;
(b) a non-string field in any of the three schemas contributes a
violation naming the handler, the schema role and the field;
(c) any violation at all is raised as the single concatenated fatal
error; and construction succeeds exactly when there is no violation,
so the Runtime never starts partially valid. -/
theorem claim5_validation_aggregates :
    (∀ n1 n2 : NodeDecl, n1.name = n2.name →
       validateNodes [n1, n2]
         = .error ("Node validation errors:\n"
             ++ String.intercalate "\n" (collectErrors [n1, n2])) ∧
       ("Duplicate node class names found: "
           ++ String.intercalate ", " [n1.name]) ∈ collectErrors [n1, n2] ∧
       duplicatesOf [n1.name, n2.name] = [n1.name]) ∧
    (∀ (nodes : List NodeDecl) (n : NodeDecl) (k : String), n ∈ nodes →
       ((k, false) ∈ n.inputs.fields →
          (n.name ++ "." ++ "Inputs" ++ " field " ++ sq ++ k ++ sq ++ " must be string")
            ∈ collectErrors nodes) ∧
       ((k, false) ∈ n.outputs.fields →
          (n.name ++ "." ++ "Outputs" ++ " field " ++ sq ++ k ++ sq ++ " must be string")
            ∈ collectErrors nodes) ∧
       ((k, false) ∈ n.secrets.fields →
          (n.name ++ "." ++ "Secrets" ++ " field " ++ sq ++ k ++ sq ++ " must be string")
            ∈ collectErrors nodes)) ∧
    (∀ nodes : List NodeDecl, collectErrors nodes ≠ [] →
       validateNodes nodes
         = .error ("Node validation errors:\n"
             ++ String.intercalate "\n" (collectErrors nodes))) ∧
    (∀ nodes : List NodeDecl, validateNodes nodes = .ok () ↔ collectErrors nodes = []) := by
  refine ⟨?_, ?_, validateNodes_error, ?_⟩
  · intro n1 n2 h
    have hdup : duplicatesOf [n1.name, n2.name] = [n1.name] := by
      rw [← h]
      exact duplicatesOf_pair n1.name
    have hmem : ("Duplicate node class names found: "
        ++ String.intercalate ", " [n1.name]) ∈ collectErrors [n1, n2] := by
      unfold collectErrors
      apply List.mem_append_right
      simp only [List.map_cons, List.map_nil, hdup]
      simp
    exact ⟨validateNodes_error _ (List.ne_nil_of_mem hmem), hmem, hdup⟩
  · intro nodes n k hn
    refine ⟨?_, ?_, ?_⟩ <;>
      intro hk <;>
      exact mem_collectErrors_of_nodeErrors nodes n hn _
        (mem_nodeErrors_of_checkStrings n _ (by
          first
          | exact Or.inl (checkStrings_mem n.name _ _ _ hk)
          | exact Or.inr (Or.inl (checkStrings_mem n.name _ _ _ hk))
          | exact Or.inr (Or.inr (checkStrings_mem n.name _ _ _ hk))))
  · intro nodes
    cases hc : collectErrors nodes with
    | nil => simp [validateNodes, hc]
    | cons x xs => simp [validateNodes, hc]

set_option maxHeartbeats 1000000 in
/-- C5, witness: two handlers both named `A`, the first with a
non-string `Outputs` field `bad`: construction fails with the single
aggregated error, which lists the duplicate name and names the bad
field. -/
theorem claim5_validation_aggregates_witness :
    validateNodes
        [⟨"A", true, true, true, true, ⟨true, []⟩, ⟨true, [("bad", false)]⟩, ⟨true, []⟩⟩,
         ⟨"A", true, true, true, true, ⟨true, []⟩, ⟨true, []⟩, ⟨true, []⟩⟩]
      = .error ("Node validation errors:\n"
          ++ String.intercalate "\n" (collectErrors
            [⟨"A", true, true, true, true, ⟨true, []⟩, ⟨true, [("bad", false)]⟩, ⟨true, []⟩⟩,
             ⟨"A", true, true, true, true, ⟨true, []⟩, ⟨true, []⟩, ⟨true, []⟩⟩])) ∧
    ("A" ++ "." ++ "Outputs" ++ " field " ++ sq ++ "bad" ++ sq ++ " must be string")
      ∈ collectErrors
          [⟨"A", true, true, true, true, ⟨true, []⟩, ⟨true, [("bad", false)]⟩, ⟨true, []⟩⟩,
           ⟨"A", true, true, true, true, ⟨true, []⟩, ⟨true, []⟩, ⟨true, []⟩⟩] :=
  ⟨(claim5_validation_aggregates.1
      ⟨"A", true, true, true, true, ⟨true, []⟩, ⟨true, [("bad", false)]⟩, ⟨true, []⟩⟩
      ⟨"A", true, true, true, true, ⟨true, []⟩, ⟨true, []⟩, ⟨true, []⟩⟩ rfl).1,
   ((claim5_validation_aggregates.2.1
      [⟨"A", true, true, true, true, ⟨true, []⟩, ⟨true, [("bad", false)]⟩, ⟨true, []⟩⟩,
       ⟨"A", true, true, true, true, ⟨true, []⟩, ⟨true, []⟩, ⟨true, []⟩⟩]
      ⟨"A", true, true, true, true, ⟨true, []⟩, ⟨true, [("bad", false)]⟩, ⟨true, []⟩⟩
      "bad" (by simp)).2.1 (by simp))⟩

end Exosphere
